import Mathlib

/-!
Verification of the drastic library (src/drastic/drastic.py) against its
natural-language specification.

Shallow embedding notes:
* Python runtime values are modelled as a type tag (`PyType`) plus an opaque
  numeric payload; `isinstance(v, t)` is modelled as tag equality (no class in
  the library's domain has a subclass relation that the spec or claims rely
  on), and the unique value of tag `tNoneType` plays the role of `None`.
* Annotation values (`spec.annotations[name]`) are either a single element or
  a tuple of elements, each element a concrete type or a keyword string,
  mirroring `_to_tuple` in drastic.py.  A missing entry of the annotations
  dict (or the `defaultdict` default `None` used by `init`) is modelled as
  `Option.none`; a `None` element contributes neither types nor keywords,
  exactly as the `Argument.__init__` loop ignores it.
* The process-wide `_enabled` flag is passed explicitly; `enable` / `disable`
  are the two Python toggle functions in state-passing style.
* Exceptions are modelled with `Except` / an explicit `Option` error slot.
  The exception messages interpolate Python set iteration order, which is
  unspecified, so errors carry the offending data (names, expected elements,
  received type) rather than a formatted string.
-/

/-- Concrete Python types, as a flat set of tags. -/
inductive PyType
  | tInt
  | tFloat
  | tStr
  | tBool
  | tList
  | tNoneType
  | tCustom (n : String)
  deriving DecidableEq, Repr

/-- A Python runtime value: its concrete type and an opaque payload. -/
structure Value where
  ty : PyType
  payload : Nat := 0
  deriving DecidableEq, Repr

/-- Models `value is None`: `None` is the unique value of type `NoneType`. -/
def Value.isNone (v : Value) : Bool := v.ty == PyType.tNoneType

/-- One element of an annotation: a concrete type or a keyword string. -/
inductive Ann
  | typ (t : PyType)
  | str (s : String)
  deriving DecidableEq, Repr

/-- A raw annotation value: a single element or a tuple of elements. -/
inductive AnnVal
  | single (a : Ann)
  | tuple (l : List Ann)
  deriving DecidableEq, Repr

/-- Models `_to_tuple` from drastic.py: wrap a non-tuple into a 1-tuple. -/
def AnnVal.toTuple : AnnVal → List Ann
  | AnnVal.single a => [a]
  | AnnVal.tuple l => l

/-- The elements of an optional annotation; a missing / `None` annotation
contributes no elements (the `Argument.__init__` loop ignores `None`). -/
def annElems : Option AnnVal → List Ann
  | some av => av.toTuple
  | none => []

/-- Which conflict rule of `Object.check_consistency` fired. -/
inductive AnnErrKind
  | localIncompat
  | uniqueReused
  deriving DecidableEq, Repr

/-- The exceptions the wrapped calls raise, carrying the interpolated data.
The first three are drastic.py's own; `indexError` models the CPython builtin
IndexError that the `checker` wrapper of `strict` raises at `spec.args[0]`
when the wrapped callable declares no positional parameters (e.g. a varargs
function) yet positional arguments are supplied. -/
inductive DrasticError
  | argumentTypeError (funcName argName : String) (expected : List Ann) (received : PyType)
  | returnTypeError (funcName : String) (expected : List Ann) (received : PyType)
  | annotationError (kind : AnnErrKind) (offenders : List String)
  | indexError
  deriving DecidableEq, Repr

/-- Helper for `pyWords`: split a character list at spaces, dropping empty
chunks, accumulating the current word reversed. -/
def wordsAux : List Char → List Char → List String
  | [], acc => if acc.isEmpty then [] else [String.mk acc.reverse]
  | c :: cs, acc =>
    if c = ' ' then
      if acc.isEmpty then wordsAux cs [] else String.mk acc.reverse :: wordsAux cs []
    else wordsAux cs (c :: acc)

/-- Models Python `str.split()` (whitespace split, empty chunks dropped). -/
def pyWords (s : String) : List String := wordsAux s.toList []

/-- The concrete types among a tuple of annotation elements
(`tuple(t for t in expected if isinstance(t, type))`). -/
def annTypes (l : List Ann) : List PyType :=
  l.filterMap fun a => match a with | Ann.typ t => some t | Ann.str _ => none

/-- Models `_type_ok(value, expected)` from drastic.py. -/
def typeOk (v : Value) (expected : List Ann) : Bool :=
  let types := annTypes expected
  let nullable := expected.contains (Ann.str "nonable")
  types.contains v.ty || (nullable && v.isNone)

/-- Models the parsing loop of `Argument.__init__`: types are accumulated in
order; each keyword string REPLACES the keyword set (`self.keywords = ...`),
exactly as in the source. -/
def parseAnnList (anns : List Ann) : List PyType × List String :=
  anns.foldl
    (fun acc a =>
      match a with
      | Ann.typ t => (acc.1 ++ [t], acc.2)
      | Ann.str s => (acc.1, (pyWords s).dedup))
    ([], [])

/-- A constructor argument: `Argument` from drastic.py after parsing. -/
structure Argument where
  name : String
  value : Value
  types : List PyType
  keywords : List String
  deriving DecidableEq, Repr

/-- The acceptable types parsed from an optional raw annotation. -/
def parsedTypes (ann : Option AnnVal) : List PyType := (parseAnnList (annElems ann)).1

/-- The trait keywords parsed from an optional raw annotation. -/
def parsedKeywords (ann : Option AnnVal) : List String := (parseAnnList (annElems ann)).2

/-- Models `Argument.check_type`: with a non-empty type set, the value must be
an instance of one of the types, unless it is `None` under `nonable`. -/
def checkType (a : Argument) : Option DrasticError :=
  if a.types = [] then none
  else if (a.value.isNone && a.keywords.contains "nonable") || a.types.contains a.value.ty then
    none
  else
    some (DrasticError.argumentTypeError "__init__" a.name (a.types.map Ann.typ) a.value.ty)

/-- Models `Argument.__init__(name, value, annotations)`: parse, then
`check_type`, which may raise `ArgumentTypeError`. -/
def mkArgument (name : String) (value : Value) (ann : Option AnnVal) :
    Except DrasticError Argument :=
  let parsed := parseAnnList (annElems ann)
  let a : Argument := ⟨name, value, parsed.1, parsed.2⟩
  match checkType a with
  | some e => Except.error e
  | none => Except.ok a

/-- The signature data `inspect.getfullargspec` yields for a callable:
its `__name__`, ordered positional parameter names, the annotations dict
(an association list; the `"return"` key holds the return annotation), and
the tuple of trailing default values. -/
structure FuncSpec where
  name : String
  args : List String
  anns : List (String × AnnVal)
  defaults : List Value := []
  deriving DecidableEq, Repr

/-- Annotations-dict lookup (`name in spec.annotations` / subscript). -/
def annLookup (sp : FuncSpec) (n : String) : Option AnnVal := sp.anns.lookup n

/-- Models `enable()` on the process-wide `_enabled` flag. -/
def enable (_b : Bool) : Bool := true

/-- Models `disable()` on the process-wide `_enabled` flag. -/
def disable (_b : Bool) : Bool := false

/-- The (name, value) pairs the `checker` wrapper of `strict` validates:
`zip(spec.args[i:], args[i:])`, skipped entirely when no positional argument
was supplied or the parameter list is exactly `['self']`; index 0 is skipped
when the first declared parameter is `self`.  `strictCall` consults this only
after its IndexError branch has ruled out the case of an empty `spec.args`
with positional arguments supplied, so here that case cannot arise (the zip
below is empty there anyway). -/
def checkedPairs (sp : FuncSpec) (args : List Value) : List (String × Value) :=
  if args = [] ∨ sp.args = ["self"] then []
  else
    let i := if sp.args.head? = some "self" then 1 else 0
    (sp.args.drop i).zip (args.drop i)

/-- Claim-side condition: this (parameter, value) pair fails its declared
constraint under `_type_ok`. -/
def violates (annOf : String → Option AnnVal) (p : String × Value) : Bool :=
  match annOf p.1 with
  | some av => !(typeOk p.2 av.toTuple)
  | none => false

/-- The first `ArgumentTypeError` of the argument-checking loop of `strict`. -/
def firstArgError (fname : String) (annOf : String → Option AnnVal) :
    List (String × Value) → Option DrasticError
  | [] => none
  | p :: ps =>
    match annOf p.1 with
    | some av =>
      if typeOk p.2 av.toTuple then firstArgError fname annOf ps
      else some (DrasticError.argumentTypeError fname p.1 av.toTuple p.2.ty)
    | none => firstArgError fname annOf ps

/-- Models one invocation of the `checker` wrapper produced by `strict(func)`.
`body` is the wrapped callable (pure: positional args and keyword args to a
result value).  When the toggle is off the callable is invoked directly.
Otherwise, entering the argument-check block (`args` truthy and `spec.args`
not exactly `['self']`) with an empty `spec.args` crashes at `spec.args[0]`
with the builtin IndexError before anything else; else the positional
arguments are validated first, then the body runs, then a declared return
annotation is validated. -/
def strictCall (enabled : Bool) (sp : FuncSpec)
    (body : List Value → List (String × Value) → Value)
    (args : List Value) (kwargs : List (String × Value)) : Except DrasticError Value :=
  if enabled = false then Except.ok (body args kwargs)
  else if ¬(args = [] ∨ sp.args = ["self"]) ∧ sp.args = [] then
    Except.error DrasticError.indexError
  else
    match firstArgError sp.name (annLookup sp) (checkedPairs sp args) with
    | some e => Except.error e
    | none =>
      let result := body args kwargs
      match annLookup sp "return" with
      | some av =>
        if typeOk result av.toTuple then Except.ok result
        else Except.error (DrasticError.returnTypeError sp.name av.toTuple result.ty)
      | none => Except.ok result

/-- The transient per-construction `Object` state: the target type's name and
the accumulated keyword (trait) set of the descriptors processed so far. -/
structure ObjState where
  name : String
  keywords : List String
  deriving DecidableEq, Repr

/-- The per-type (class attribute) state mutated by capability installation:
`_varbool`/`__bool__`, `_varnumber`/`__int__`/`__float__`, `_varstr`,
`_varitems`/container methods, `_varcmp`/comparison methods, `__str__`, and
the `_initialized` marker.  Method installation and the backing-field name
always go together in the source, so one `Option String` models both. -/
structure TypeState where
  inited : Bool := false
  varbool : Option String := none
  varnumber : Option String := none
  varstr : Option (List String) := none
  varitems : Option String := none
  varcmp : Option String := none
  hasStr : Bool := false
  deriving DecidableEq, Repr

/-- Attribute assignments performed on the instance under construction, in
`setattr` order (name, value). -/
abbrev Inst := List (String × Value)

/-- The full state threaded through one construction. -/
structure ConsState where
  ts : TypeState
  os : ObjState
  inst : Inst
  deriving DecidableEq, Repr

/-- `Object.local_incompatible` from drastic.py. -/
def localIncompatible : List String :=
  ["private", "boolean", "number", "string", "container", "compare"]

/-- `Object.uniques` from drastic.py. -/
def uniques : List String := ["boolean", "number", "container", "compare"]

/-- Models `Object.check_consistency`: a `local` keyword may not co-occur with
any capability keyword; a unique trait may not be claimed twice on the same
type; on success the accumulated keyword set is extended. -/
def checkConsistency (os : ObjState) (arg : Argument) : Except DrasticError ObjState :=
  if "local" ∈ arg.keywords ∧ arg.keywords.filter (fun k => k ∈ localIncompatible) ≠ [] then
    Except.error (DrasticError.annotationError AnnErrKind.localIncompat
      (arg.keywords.filter (fun k => k ∈ localIncompatible)))
  else if (arg.keywords.filter (fun k => k ∈ uniques)).filter (fun k => k ∈ os.keywords)
      ≠ [] then
    Except.error (DrasticError.annotationError AnnErrKind.uniqueReused
      ((arg.keywords.filter (fun k => k ∈ uniques)).filter (fun k => k ∈ os.keywords)))
  else Except.ok { os with keywords := (os.keywords ++ arg.keywords).dedup }

/-- Models `Object.set_private`: the type-and-field-qualified mangled name. -/
def privateName (tyName argName : String) : String :=
  "_" ++ tyName ++ "__" ++ argName

/-- Models the capability-installation block of `Object.add_argument` (the
body of its `not hasattr(self.type, '_initialized')` branch): `set_private`
rewrites the argument's name first, so every later installer records the
mangled name; returns the new type state and the (possibly rewritten) name. -/
def installCapabilities (tyName : String) (ts : TypeState) (arg : Argument) :
    TypeState × String :=
  let nm := if "private" ∈ arg.keywords then privateName tyName arg.name else arg.name
  let ts := if "boolean" ∈ arg.keywords then { ts with varbool := some nm } else ts
  let ts := if "number" ∈ arg.keywords then { ts with varnumber := some nm } else ts
  let ts := if "string" ∈ arg.keywords then
      { ts with varstr := some ((ts.varstr.getD []) ++ [nm]) } else ts
  let ts := if "container" ∈ arg.keywords then { ts with varitems := some nm } else ts
  let ts := if "compare" ∈ arg.keywords then { ts with varcmp := some nm } else ts
  (ts, nm)

/-- Models `Object.add_argument`: consistency check first (which may raise
`AnnotationError`), capability installation only while the type is not yet
marked initialized, then the `setattr` of the (possibly rewritten) name. -/
def addArgument (st : ConsState) (arg : Argument) : Except DrasticError ConsState :=
  match checkConsistency st.os arg with
  | Except.error e => Except.error e
  | Except.ok os2 =>
    let pair := if st.ts.inited then (st.ts, arg.name)
                else installCapabilities st.os.name st.ts arg
    Except.ok ⟨pair.1, os2, st.inst ++ [(pair.2, arg.value)]⟩

/-- Models `Object.finalize`: `add_tostring` installs `__str__` when `_varstr`
exists, then the type is marked `_initialized`. -/
def finalizeTS (ts : TypeState) : TypeState :=
  { ts with hasStr := ts.hasStr || ts.varstr.isSome, inited := true }

/-- One field of the `__init` loop: build the `Argument` (which may raise
`ArgumentTypeError`), then `add_argument`. -/
def processField (annOf : String → Option AnnVal) (st : ConsState) (p : String × Value) :
    Except DrasticError ConsState :=
  match mkArgument p.1 p.2 (annOf p.1) with
  | Except.error e => Except.error e
  | Except.ok arg => addArgument st arg

/-- The `__init` loop over the zipped (parameter, value) pairs: stops at the
first exception, returning the state reached so far (attributes already set
on the instance and capabilities already installed on the type persist). -/
def runArgs (annOf : String → Option AnnVal) :
    ConsState → List (String × Value) → Option DrasticError × ConsState
  | st, [] => (none, st)
  | st, p :: ps =>
    match processField annOf st p with
    | Except.error e => (some e, st)
    | Except.ok st2 => runArgs annOf st2 ps

/-- Models the default-padding of `__init`:
`arguments += spec.defaults[len(arguments) - len(spec.args):]` (a negative
slice from the end), phrased over the lists with the receiver dropped. -/
def padArgs (vals defaults : List Value) (nfields : Nat) : List Value :=
  if vals.length < nfields then
    vals ++ defaults.drop (defaults.length - (nfields - vals.length))
  else vals

/-- Outcome of one call of the wrapped constructor: the exception (if any)
that propagated to the caller, the resulting per-type state, and the
attribute assignments now present on the instance. -/
structure InitResult where
  error : Option DrasticError
  ts : TypeState
  inst : Inst
  deriving DecidableEq, Repr

/-- Models one invocation of the `__init` wrapper produced by `init`:
when the toggle is on, pad the values with declared defaults, run the
descriptor pipeline over `zip(spec.args[1:], arguments[1:])`, finalize, and
only then run the original constructor body (modelled as a transformation of
the instance's attribute assignments); when the toggle is off, only the
original constructor body runs, on a fresh instance.  An exception aborts the
call before the body, leaving the partial state in place. -/
def initCall (enabled : Bool) (tyName : String) (sp : FuncSpec)
    (body : Inst → Inst) (ts : TypeState) (vals : List Value) : InitResult :=
  if enabled then
    let padded := padArgs vals sp.defaults (sp.args.length - 1)
    let pairs := (sp.args.drop 1).zip padded
    match runArgs (annLookup sp) ⟨ts, ⟨tyName, []⟩, []⟩ pairs with
    | (some e, st) => ⟨some e, st.ts, st.inst⟩
    | (none, st) => ⟨none, finalizeTS st.ts, body st.inst⟩
  else ⟨none, ts, body []⟩

lemma firstArgError_eq_none (fname : String) (annOf : String → Option AnnVal) :
    ∀ ps : List (String × Value), (∀ p ∈ ps, violates annOf p = false) →
      firstArgError fname annOf ps = none := by
  intro ps
  induction ps with
  | nil => intro _; rfl
  | cons p ps ih =>
    intro h
    have hp := h p (List.mem_cons_self _ _)
    unfold firstArgError
    unfold violates at hp
    cases hav : annOf p.1 with
    | none => exact ih fun q hq => h q (List.mem_cons_of_mem _ hq)
    | some av =>
      rw [hav] at hp
      simp only [Bool.not_eq_false'] at hp
      simp only [hp, if_true]
      exact ih fun q hq => h q (List.mem_cons_of_mem _ hq)

lemma firstArgError_arg_shape (fname : String) (annOf : String → Option AnnVal) :
    ∀ ps : List (String × Value), (∃ p ∈ ps, violates annOf p = true) →
      ∃ n exp t, firstArgError fname annOf ps =
        some (DrasticError.argumentTypeError fname n exp t) := by
  intro ps
  induction ps with
  | nil => rintro ⟨p, hp, _⟩; exact absurd hp (List.not_mem_nil p)
  | cons p ps ih =>
    rintro ⟨q, hq, hviol⟩
    unfold firstArgError
    cases hav : annOf p.1 with
    | none =>
      apply ih
      rcases List.mem_cons.mp hq with rfl | hq2
      · simp [violates, hav] at hviol
      · exact ⟨q, hq2, hviol⟩
    | some av =>
      by_cases hok : typeOk p.2 av.toTuple = true
      · simp only [hok, if_true]
        apply ih
        rcases List.mem_cons.mp hq with rfl | hq2
        · simp [violates, hav, hok] at hviol
        · exact ⟨q, hq2, hviol⟩
      · simp only [Bool.not_eq_true] at hok
        simp only [hok]
        exact ⟨p.1, av.toTuple, p.2.ty, rfl⟩

/-- Concrete signature of the spec's end-to-end example: `f(n: int) -> str`. -/
def fC1 : FuncSpec :=
  ⟨"f", ["n"],
   [("n", AnnVal.single (Ann.typ PyType.tInt)),
    ("return", AnnVal.single (Ann.typ PyType.tStr))], []⟩

/-- A body returning a string value. -/
def bodyS : List Value → List (String × Value) → Value := fun _ _ => ⟨PyType.tStr, 1⟩

/-- A body returning an int value. -/
def bodyI : List Value → List (String × Value) → Value := fun _ _ => ⟨PyType.tInt, 7⟩

/-- Auxiliary: validated pairs only exist when the callable declares a
parameter. -/
lemma checkedPairs_args_ne_nil (sp : FuncSpec) (args : List Value)
    (h : checkedPairs sp args ≠ []) : sp.args ≠ [] := by
  intro hsp
  apply h
  unfold checkedPairs
  rw [hsp]
  simp

/-- C1 counterexample: the claim, read over every wrapped function, predicts
that with the toggle on a call where no argument check and no return check
fails returns the body's result unchanged; but for a callable declaring no
positional parameters (`inspect.getfullargspec` of a varargs `def f(*a)`
yields `args = []`) a call supplying a positional argument enters the check
block and crashes at `spec.args[0]` with IndexError before the body runs, so
nothing is returned. -/
def fC1x : FuncSpec := ⟨"f", [], [], []⟩

theorem strict_enforcement_c1_counterexample :
    strictCall true fC1x bodyS [⟨PyType.tInt, 5⟩] [] =
      Except.error DrasticError.indexError
  ∧ strictCall true fC1x bodyS [⟨PyType.tInt, 5⟩] [] ≠
      Except.ok (bodyS [⟨PyType.tInt, 5⟩] []) := by
  refine ⟨rfl, fun h => ?_⟩
  exact Except.noConfusion ((rfl : strictCall true fC1x bodyS [⟨PyType.tInt, 5⟩] [] =
    Except.error DrasticError.indexError).symm.trans h)

/-- Reduction of `strictCall` on the toggle-on, no-IndexError path. -/
lemma strictCall_true_reduce (sp : FuncSpec)
    (body : List Value → List (String × Value) → Value)
    (args : List Value) (kwargs : List (String × Value))
    (hcond : ¬(¬(args = [] ∨ sp.args = ["self"]) ∧ sp.args = [])) :
    strictCall true sp body args kwargs =
      match firstArgError sp.name (annLookup sp) (checkedPairs sp args) with
      | some e => Except.error e
      | none =>
        match annLookup sp "return" with
        | some av =>
          if typeOk (body args kwargs) av.toTuple then Except.ok (body args kwargs)
          else Except.error
            (DrasticError.returnTypeError sp.name av.toTuple (body args kwargs).ty)
        | none => Except.ok (body args kwargs) := by
  unfold strictCall
  rw [if_neg (by decide : ¬(true = false)), if_neg hcond]

/-- C1 (amended): for a wrapped function with the toggle on — provided the
callable declares at least one positional parameter or no positional argument
is supplied, so that the checker does not crash at `spec.args[0]` with
IndexError — a call with a positional argument failing its declared
constraint raises `ArgumentTypeError` before the function body runs (the
outcome is the same for every body and all keyword arguments; this part needs
no proviso, since a failing pair only exists under a declared parameter); a
call whose positional arguments all validate but whose result fails a
declared return annotation raises `ReturnTypeError` after the body runs; and
a call where both checks pass returns the body's result unchanged. -/
theorem strict_enforcement_c1 :
    (∀ (sp : FuncSpec) body body' args kwargs kwargs',
        (∃ p ∈ checkedPairs sp args, violates (annLookup sp) p = true) →
        (∃ n exp t, strictCall true sp body args kwargs =
            Except.error (DrasticError.argumentTypeError sp.name n exp t))
        ∧ strictCall true sp body args kwargs = strictCall true sp body' args kwargs')
  ∧ (∀ (sp : FuncSpec) body args kwargs av,
        sp.args ≠ [] ∨ args = [] →
        (∀ p ∈ checkedPairs sp args, violates (annLookup sp) p = false) →
        annLookup sp "return" = some av →
        typeOk (body args kwargs) av.toTuple = false →
        strictCall true sp body args kwargs =
          Except.error (DrasticError.returnTypeError sp.name av.toTuple (body args kwargs).ty))
  ∧ (∀ (sp : FuncSpec) body args kwargs,
        sp.args ≠ [] ∨ args = [] →
        (∀ p ∈ checkedPairs sp args, violates (annLookup sp) p = false) →
        (∀ av, annLookup sp "return" = some av → typeOk (body args kwargs) av.toTuple = true) →
        strictCall true sp body args kwargs = Except.ok (body args kwargs)) := by
  have hsafe_cond : ∀ (sp : FuncSpec) (args : List Value), sp.args ≠ [] ∨ args = [] →
      ¬(¬(args = [] ∨ sp.args = ["self"]) ∧ sp.args = []) := by
    rintro sp args hsafe ⟨hng, hsp⟩
    rcases hsafe with h | h
    · exact h hsp
    · exact hng (Or.inl h)
  refine ⟨?_, ?_, ?_⟩
  · intro sp body body' args kwargs kwargs' hex
    obtain ⟨n, exp, t, hfe⟩ := firstArgError_arg_shape sp.name (annLookup sp) _ hex
    obtain ⟨p, hp, _⟩ := hex
    have hargs : sp.args ≠ [] :=
      checkedPairs_args_ne_nil sp args (List.ne_nil_of_mem hp)
    have hcond : ¬(¬(args = [] ∨ sp.args = ["self"]) ∧ sp.args = []) :=
      fun h => hargs h.2
    constructor
    · exact ⟨n, exp, t, by
        rw [strictCall_true_reduce sp body args kwargs hcond, hfe]⟩
    · rw [strictCall_true_reduce sp body args kwargs hcond,
        strictCall_true_reduce sp body' args kwargs' hcond, hfe]
  · intro sp body args kwargs av hsafe hall hret hbad
    have hcond := hsafe_cond sp args hsafe
    have hfe := firstArgError_eq_none sp.name (annLookup sp) _ hall
    rw [strictCall_true_reduce sp body args kwargs hcond, hfe, hret]
    simp [hbad]
  · intro sp body args kwargs hsafe hall hret
    have hcond := hsafe_cond sp args hsafe
    have hfe := firstArgError_eq_none sp.name (annLookup sp) _ hall
    rw [strictCall_true_reduce sp body args kwargs hcond, hfe]
    cases hav : annLookup sp "return" with
    | none => rfl
    | some av => simp [hret av hav]

theorem strict_enforcement_c1_witness :
    strictCall true fC1 bodyS [⟨PyType.tStr, 0⟩] [] =
      strictCall true fC1 bodyI [⟨PyType.tStr, 0⟩] [("k", ⟨PyType.tInt, 3⟩)]
  ∧ strictCall true fC1 bodyI [⟨PyType.tInt, 5⟩] [] =
      Except.error (DrasticError.returnTypeError "f" [Ann.typ PyType.tStr] PyType.tInt)
  ∧ strictCall true fC1 bodyS [⟨PyType.tInt, 5⟩] [] = Except.ok ⟨PyType.tStr, 1⟩ := by
  refine ⟨?_, ?_, ?_⟩
  · exact (strict_enforcement_c1.1 fC1 bodyS bodyI [⟨PyType.tStr, 0⟩] []
      [("k", ⟨PyType.tInt, 3⟩)] (by decide)).2
  · exact strict_enforcement_c1.2.1 fC1 bodyI [⟨PyType.tInt, 5⟩] []
      (AnnVal.single (Ann.typ PyType.tStr)) (by decide) (by decide) rfl rfl
  · refine strict_enforcement_c1.2.2 fC1 bodyS [⟨PyType.tInt, 5⟩] [] (by decide)
      (by decide) ?_
    intro av h
    have h2 : some (AnnVal.single (Ann.typ PyType.tStr)) = some av := by
      exact (rfl : annLookup fC1 "return" = _).symm.trans h
    cases h2
    rfl

/-- C2: after `disable()` no wrapped call or decorated construction can raise
any of the three errors — the underlying callable runs directly (`strictCall`
returns the body's result, `initCall` only runs the original constructor body
and leaves the type state untouched) — and after `enable()` both entry points
behave exactly as with enforcement on. -/
theorem toggle_disable_c2 :
    (∀ (b : Bool) (sp : FuncSpec) body args kwargs,
        strictCall (disable b) sp body args kwargs = Except.ok (body args kwargs))
  ∧ (∀ (b : Bool) tyName (sp : FuncSpec) (body : Inst → Inst) ts vals,
        initCall (disable b) tyName sp body ts vals = ⟨none, ts, body []⟩)
  ∧ (∀ (b : Bool) (sp : FuncSpec) body args kwargs,
        strictCall (enable b) sp body args kwargs = strictCall true sp body args kwargs)
  ∧ (∀ (b : Bool) tyName (sp : FuncSpec) (body : Inst → Inst) ts vals,
        initCall (enable b) tyName sp body ts vals = initCall true tyName sp body ts vals) :=
  ⟨fun _ _ _ _ _ => rfl, fun _ _ _ _ _ _ => rfl, fun _ _ _ _ _ => rfl,
   fun _ _ _ _ _ _ => rfl⟩

/-- C10: `strict` validates only positional arguments.  The validation outcome
never depends on the keyword arguments (two calls differing only in keyword
arguments that the body treats alike have identical outcomes), and a call
passing every argument by keyword can never raise `ArgumentTypeError`,
whatever the keyword values and the declared constraints. -/
theorem strict_kwargs_unchecked_c10 :
    (∀ (sp : FuncSpec) body args kwargs kwargs',
        body args kwargs = body args kwargs' →
        strictCall true sp body args kwargs = strictCall true sp body args kwargs')
  ∧ (∀ (sp : FuncSpec) body kwargs fn n exp t,
        strictCall true sp body [] kwargs ≠
          Except.error (DrasticError.argumentTypeError fn n exp t)) := by
  constructor
  · intro sp body args kwargs kwargs' hbody
    by_cases hcr : ¬(args = [] ∨ sp.args = ["self"]) ∧ sp.args = []
    · have hix : ∀ kw, strictCall true sp body args kw =
          Except.error DrasticError.indexError := by
        intro kw
        unfold strictCall
        rw [if_neg (by decide : ¬(true = false)), if_pos hcr]
      rw [hix kwargs, hix kwargs']
    · rw [strictCall_true_reduce sp body args kwargs hcr,
        strictCall_true_reduce sp body args kwargs' hcr]
      cases hfe : firstArgError sp.name (annLookup sp) (checkedPairs sp args) with
      | some e => rfl
      | none => rw [hbody]
  · intro sp body kwargs fn n exp t
    have hcr : ¬(¬(([] : List Value) = [] ∨ sp.args = ["self"]) ∧ sp.args = []) :=
      fun h => h.1 (Or.inl rfl)
    have hcp : checkedPairs sp [] = [] := by simp [checkedPairs]
    rw [strictCall_true_reduce sp body [] kwargs hcr, hcp]
    cases hav : annLookup sp "return" with
    | none => simp [firstArgError]
    | some av =>
      by_cases hok : typeOk (body [] kwargs) av.toTuple = true
      · simp [firstArgError, hok]
      · simp only [Bool.not_eq_true] at hok
        simp [firstArgError, hok]

theorem strict_kwargs_unchecked_c10_witness :
    strictCall true fC1 bodyS [] [("n", ⟨PyType.tStr, 0⟩)] =
      strictCall true fC1 bodyS [] [] :=
  strict_kwargs_unchecked_c10.1 fC1 bodyS [] [("n", ⟨PyType.tStr, 0⟩)] [] rfl

lemma contains_iff_mem {α : Type} [DecidableEq α] (l : List α) (a : α) :
    l.contains a = true ↔ a ∈ l := List.elem_iff

/-- C3: constructing an `Argument` raises `ArgumentTypeError` exactly when the
parsed set of acceptable types is non-empty, the value's concrete type is not
among them, and the value is not the `None` sentinel under a declared
`nonable`; the raised error names the function `__init__`, the parameter, the
expected types and the received type; and with `nonable` declared and the
value `None`, construction succeeds regardless of the acceptable types. -/
theorem argument_check_type_c3 :
    (∀ name value ann,
        (∃ e, mkArgument name value ann = Except.error e)
          ↔ (parsedTypes ann ≠ [] ∧ (parsedTypes ann).contains value.ty = false
              ∧ ¬(value.isNone = true ∧ "nonable" ∈ parsedKeywords ann)))
  ∧ (∀ name value ann e, mkArgument name value ann = Except.error e →
        e = DrasticError.argumentTypeError "__init__" name
              ((parsedTypes ann).map Ann.typ) value.ty)
  ∧ (∀ name value ann, "nonable" ∈ parsedKeywords ann → value.isNone = true →
        mkArgument name value ann =
          Except.ok ⟨name, value, parsedTypes ann, parsedKeywords ann⟩) := by
  have hred : ∀ name value ann, mkArgument name value ann =
      (if parsedTypes ann = [] then
         Except.ok (⟨name, value, parsedTypes ann, parsedKeywords ann⟩ : Argument)
       else if ((value.isNone && (parsedKeywords ann).contains "nonable")
           || (parsedTypes ann).contains value.ty) = true then
         Except.ok (⟨name, value, parsedTypes ann, parsedKeywords ann⟩ : Argument)
       else Except.error (DrasticError.argumentTypeError "__init__" name
              ((parsedTypes ann).map Ann.typ) value.ty)) := by
    intro name value ann
    show (match checkType ⟨name, value, parsedTypes ann, parsedKeywords ann⟩ with
          | some e => Except.error e
          | none => Except.ok (⟨name, value, parsedTypes ann, parsedKeywords ann⟩ : Argument)) = _
    unfold checkType
    by_cases hemp : parsedTypes ann = []
    · simp [hemp]
    · simp only [hemp, if_false, if_neg]
      by_cases hc : (value.isNone = true ∧ "nonable" ∈ parsedKeywords ann
          ∨ value.ty ∈ parsedTypes ann)
      · simp [hc]
      · simp [hc]
  refine ⟨?_, ?_, ?_⟩
  · intro name value ann
    rw [hred]
    by_cases hemp : parsedTypes ann = []
    · simp [hemp]
    · rw [if_neg hemp]
      simp only [ne_eq, hemp, not_false_eq_true, true_and]
      by_cases hcond : ((value.isNone && (parsedKeywords ann).contains "nonable")
          || (parsedTypes ann).contains value.ty) = true
      · rw [if_pos hcond]
        rw [Bool.or_eq_true, Bool.and_eq_true] at hcond
        constructor
        · rintro ⟨e, he⟩; cases he
        · rintro ⟨hty, hnul⟩
          rcases hcond with ⟨hn, hk⟩ | hty2
          · exact absurd ⟨hn, (contains_iff_mem _ _).mp hk⟩ hnul
          · rw [hty2] at hty; cases hty
      · rw [if_neg hcond]
        simp only [Bool.not_eq_true] at hcond
        obtain ⟨hand, hty⟩ := Bool.or_eq_false_iff.mp hcond
        refine ⟨fun _ => ⟨hty, ?_⟩, fun _ => ⟨_, rfl⟩⟩
        rintro ⟨hn, hk⟩
        rcases Bool.and_eq_false_iff.mp hand with hnul | hnul
        · rw [hn] at hnul; cases hnul
        · rw [(contains_iff_mem _ _).mpr hk] at hnul; cases hnul
  · intro name value ann e he
    rw [hred] at he
    by_cases hemp : parsedTypes ann = []
    · rw [if_pos hemp] at he; cases he
    · rw [if_neg hemp] at he
      by_cases hcond : ((value.isNone && (parsedKeywords ann).contains "nonable")
          || (parsedTypes ann).contains value.ty) = true
      · rw [if_pos hcond] at he; cases he
      · rw [if_neg hcond] at he
        exact ((Except.error.injEq _ _).mp he).symm
  · intro name value ann hk hn
    rw [hred]
    by_cases hemp : parsedTypes ann = []
    · rw [if_pos hemp]
    · rw [if_neg hemp, if_pos]
      rw [Bool.or_eq_true, Bool.and_eq_true]
      exact Or.inl ⟨hn, (contains_iff_mem _ _).mpr hk⟩

/-- Annotation of the spec's nullable example: `(int, 'nonable')`. -/
def annC3 : Option AnnVal :=
  some (AnnVal.tuple [Ann.typ PyType.tInt, Ann.str "nonable"])

theorem argument_check_type_c3_witness :
    mkArgument "x" ⟨PyType.tNoneType, 0⟩ annC3 =
      Except.ok ⟨"x", ⟨PyType.tNoneType, 0⟩, [PyType.tInt], ["nonable"]⟩ :=
  argument_check_type_c3.2.2 "x" ⟨PyType.tNoneType, 0⟩ annC3 (by decide) rfl

/-- C5: a descriptor declaring `local` together with any of the capability
traits {private, boolean, number, string, container, compare} is rejected by
`add_argument` with an `AnnotationError` naming the offending co-occurring
traits. -/
theorem local_trait_conflict_c5 :
    ∀ (st : ConsState) (arg : Argument) (k : String),
      "local" ∈ arg.keywords → k ∈ arg.keywords → k ∈ localIncompatible →
      addArgument st arg =
        Except.error (DrasticError.annotationError AnnErrKind.localIncompat
          (arg.keywords.filter (fun k2 => k2 ∈ localIncompatible)))
      ∧ k ∈ arg.keywords.filter (fun k2 => k2 ∈ localIncompatible) := by
  intro st arg k hl hk hinc
  have hmem : k ∈ arg.keywords.filter (fun k2 => k2 ∈ localIncompatible) :=
    List.mem_filter.mpr ⟨hk, decide_eq_true hinc⟩
  have hcc : checkConsistency st.os arg =
      Except.error (DrasticError.annotationError AnnErrKind.localIncompat
        (arg.keywords.filter (fun k2 => k2 ∈ localIncompatible))) := by
    unfold checkConsistency
    rw [if_pos ⟨hl, List.ne_nil_of_mem hmem⟩]
  refine ⟨?_, hmem⟩
  unfold addArgument
  rw [hcc]

/-- State and argument exhibiting the local/private conflict. -/
def stC5 : ConsState := ⟨{}, ⟨"T", []⟩, []⟩

/-- Argument declaring the conflicting traits `local private`. -/
def argC5 : Argument := ⟨"x", ⟨PyType.tInt, 1⟩, [], ["local", "private"]⟩

theorem local_trait_conflict_c5_witness :
    addArgument stC5 argC5 =
      Except.error (DrasticError.annotationError AnnErrKind.localIncompat ["private"]) :=
  (local_trait_conflict_c5 stC5 argC5 "private" (by decide) (by decide) (by decide)).1

/-- C4: when two distinct fields of a type claim the same unique trait
(boolean, number, container or compare), processing the first succeeds — and
extends the accumulated trait set by exactly that field's keywords — while
processing the second raises `AnnotationError` naming the already-claimed
trait(s); on the failing check the accumulated set is not extended (the error
carries no successor state). -/
theorem unique_trait_second_field_c4 :
    ∀ (st : ConsState) (a1 a2 : Argument) (t : String),
      t ∈ uniques → t ∈ a1.keywords → t ∈ a2.keywords →
      "local" ∉ a1.keywords → "local" ∉ a2.keywords →
      (∀ u ∈ a1.keywords, u ∈ uniques → u ∉ st.os.keywords) →
      ∃ st2, addArgument st a1 = Except.ok st2
        ∧ st2.os.keywords = (st.os.keywords ++ a1.keywords).dedup
        ∧ t ∈ st2.os.keywords
        ∧ addArgument st2 a2 =
            Except.error (DrasticError.annotationError AnnErrKind.uniqueReused
              ((a2.keywords.filter (fun k => k ∈ uniques)).filter
                (fun k => k ∈ st2.os.keywords)))
        ∧ t ∈ (a2.keywords.filter (fun k => k ∈ uniques)).filter
            (fun k => k ∈ st2.os.keywords) := by
  intro st a1 a2 t htu ht1 ht2 hl1 hl2 hfresh
  have hcc1 : checkConsistency st.os a1 =
      Except.ok { st.os with keywords := (st.os.keywords ++ a1.keywords).dedup } := by
    unfold checkConsistency
    rw [if_neg (fun h => hl1 h.1), if_neg]
    intro hne
    apply hne
    rw [List.filter_eq_nil_iff]
    intro k hkf
    obtain ⟨hk1, hku⟩ := List.mem_filter.mp hkf
    simpa using hfresh k hk1 (of_decide_eq_true hku)
  have hadd1 : addArgument st a1 =
      Except.ok ⟨(if st.ts.inited then (st.ts, a1.name)
                  else installCapabilities st.os.name st.ts a1).1,
                 { st.os with keywords := (st.os.keywords ++ a1.keywords).dedup },
                 st.inst ++ [((if st.ts.inited then (st.ts, a1.name)
                  else installCapabilities st.os.name st.ts a1).2, a1.value)]⟩ := by
    unfold addArgument
    rw [hcc1]
  refine ⟨_, hadd1, rfl, ?_, ?_, ?_⟩
  · exact List.mem_dedup.mpr (List.mem_append_right _ ht1)
  · have htos : t ∈ (st.os.keywords ++ a1.keywords).dedup :=
      List.mem_dedup.mpr (List.mem_append_right _ ht1)
    have hmem2 : t ∈ (a2.keywords.filter (fun k => k ∈ uniques)).filter
        (fun k => k ∈ (st.os.keywords ++ a1.keywords).dedup) :=
      List.mem_filter.mpr ⟨List.mem_filter.mpr ⟨ht2, decide_eq_true htu⟩,
        decide_eq_true htos⟩
    have hcc2 : checkConsistency
        { st.os with keywords := (st.os.keywords ++ a1.keywords).dedup } a2 =
        Except.error (DrasticError.annotationError AnnErrKind.uniqueReused
          ((a2.keywords.filter (fun k => k ∈ uniques)).filter
            (fun k => k ∈ (st.os.keywords ++ a1.keywords).dedup))) := by
      unfold checkConsistency
      rw [if_neg (fun h => hl2 h.1), if_pos (List.ne_nil_of_mem hmem2)]
    unfold addArgument
    rw [hcc2]
  · exact List.mem_filter.mpr ⟨List.mem_filter.mpr ⟨ht2, decide_eq_true htu⟩,
      decide_eq_true (List.mem_dedup.mpr (List.mem_append_right _ ht1))⟩

/-- Fresh state for the duplicate-boolean scenario. -/
def stC4 : ConsState := ⟨{}, ⟨"T", []⟩, []⟩

/-- First field claiming `boolean`. -/
def a1C4 : Argument := ⟨"x", ⟨PyType.tInt, 1⟩, [], ["boolean"]⟩

/-- Second field claiming `boolean` again. -/
def a2C4 : Argument := ⟨"y", ⟨PyType.tInt, 2⟩, [], ["boolean"]⟩

theorem unique_trait_second_field_c4_witness :
    ∃ st2, addArgument stC4 a1C4 = Except.ok st2
      ∧ st2.os.keywords = (stC4.os.keywords ++ a1C4.keywords).dedup
      ∧ "boolean" ∈ st2.os.keywords
      ∧ addArgument st2 a2C4 =
          Except.error (DrasticError.annotationError AnnErrKind.uniqueReused
            ((a2C4.keywords.filter (fun k => k ∈ uniques)).filter
              (fun k => k ∈ st2.os.keywords)))
      ∧ "boolean" ∈ (a2C4.keywords.filter (fun k => k ∈ uniques)).filter
          (fun k => k ∈ st2.os.keywords) :=
  unique_trait_second_field_c4 stC4 a1C4 a2C4 "boolean"
    (by decide) (by decide) (by decide) (by decide) (by decide) (by decide)

lemma installCapabilities_name (ty : String) (ts : TypeState) (arg : Argument) :
    (installCapabilities ty ts arg).2 =
      if "private" ∈ arg.keywords then privateName ty arg.name else arg.name := rfl

/-- Signature of a constructor with one `private` field. -/
def fC8 : FuncSpec :=
  ⟨"__init__", ["self", "x"], [("x", AnnVal.single (Ann.str "private"))], []⟩

/-- First construction of the private-field type, from a fresh type state. -/
def r1C8 : InitResult := initCall true "T" fC8 (fun i => i) {} [⟨PyType.tInt, 1⟩]

/-- Second construction, from the type state the first left behind. -/
def r2C8 : InitResult := initCall true "T" fC8 (fun i => i) r1C8.ts [⟨PyType.tInt, 2⟩]

/-- C8 counterexample: the claim says the value is attached under the mangled
name on every construction; on the second construction of the (now
initialized) type the rename branch is skipped and the value is attached
under the original name `x`, not `_T__x`. -/
theorem private_mangle_c8_counterexample :
    r1C8.inst = [("_T__x", ⟨PyType.tInt, 1⟩)]
  ∧ r2C8.inst = [("x", ⟨PyType.tInt, 2⟩)]
  ∧ ("_T__x", (⟨PyType.tInt, 2⟩ : Value)) ∉ r2C8.inst := by
  refine ⟨rfl, rfl, ?_⟩
  intro h
  simp only [r2C8, r1C8] at h
  revert h
  decide

/-- C8 (amended): only while the type is not yet initialized does
`add_argument` rewrite a `private` field's name to the mangled
`_TypeName__field` form before attaching the value; once the type is
initialized the rewrite is skipped and the value is attached under the
original name. -/
theorem private_mangle_c8_amended :
    (∀ (st : ConsState) (arg : Argument) st2, st.ts.inited = false →
        "private" ∈ arg.keywords →
        addArgument st arg = Except.ok st2 →
        st2.inst = st.inst ++ [(privateName st.os.name arg.name, arg.value)])
  ∧ (∀ (st : ConsState) (arg : Argument) st2, st.ts.inited = true →
        addArgument st arg = Except.ok st2 →
        st2.inst = st.inst ++ [(arg.name, arg.value)]) := by
  constructor
  · intro st arg st2 hni hpriv hok
    unfold addArgument at hok
    cases hcc : checkConsistency st.os arg with
    | error e => rw [hcc] at hok; cases hok
    | ok os2 =>
      rw [hcc] at hok
      have h2 := (Except.ok.injEq _ _).mp hok
      rw [← h2]
      simp only [hni, Bool.false_eq_true, if_false, installCapabilities_name,
        if_pos hpriv]
  · intro st arg st2 hi hok
    unfold addArgument at hok
    cases hcc : checkConsistency st.os arg with
    | error e => rw [hcc] at hok; cases hok
    | ok os2 =>
      rw [hcc] at hok
      have h2 := (Except.ok.injEq _ _).mp hok
      rw [← h2]
      simp only [hi, if_true]

/-- A fresh state for the amended-C8 witness. -/
def stC8a : ConsState := ⟨{}, ⟨"T", []⟩, []⟩

/-- An initialized-type state for the amended-C8 witness. -/
def stC8b : ConsState := ⟨{ inited := true }, ⟨"T", []⟩, []⟩

/-- A private field argument. -/
def argC8 : Argument := ⟨"x", ⟨PyType.tInt, 1⟩, [], ["private"]⟩

theorem private_mangle_c8_witness :
    (⟨{}, ⟨"T", ["private"]⟩, [("_T__x", ⟨PyType.tInt, 1⟩)]⟩ : ConsState).inst =
      stC8a.inst ++ [(privateName stC8a.os.name argC8.name, argC8.value)]
  ∧ (⟨{ inited := true }, ⟨"T", ["private"]⟩, [("x", ⟨PyType.tInt, 1⟩)]⟩ : ConsState).inst =
      stC8b.inst ++ [(argC8.name, argC8.value)] :=
  ⟨private_mangle_c8_amended.1 stC8a argC8
      ⟨{}, ⟨"T", ["private"]⟩, [("_T__x", ⟨PyType.tInt, 1⟩)]⟩ rfl (by decide) rfl,
   private_mangle_c8_amended.2 stC8b argC8
      ⟨{ inited := true }, ⟨"T", ["private"]⟩, [("x", ⟨PyType.tInt, 1⟩)]⟩ rfl rfl⟩

/-- Signature of a constructor declaring one annotated field `x: int`. -/
def fC7 : FuncSpec :=
  ⟨"__init__", ["self", "x"], [("x", AnnVal.single (Ann.typ PyType.tInt))], []⟩

/-- C7 counterexample: the claim says that with the toggle off the
constructor-decoration entry point still assigns each declared field on the
instance; in fact the whole pipeline, `setattr` included, sits inside the
`if _enabled:` branch, so with the toggle off (and a `pass`-style constructor
body) the declared field `x` is never assigned. -/
theorem init_disabled_c7_counterexample :
    initCall false "T" fC7 (fun i => i) {} [⟨PyType.tInt, 5⟩] = ⟨none, {}, []⟩
  ∧ ("x", (⟨PyType.tInt, 5⟩ : Value)) ∉
      (initCall false "T" fC7 (fun i => i) {} [⟨PyType.tInt, 5⟩]).inst := by
  refine ⟨rfl, ?_⟩
  intro h
  revert h
  decide

/-- C7 (amended): with the global toggle off, the constructor-decoration
entry point skips consistency checking, capability installation AND field
assignment alike — it neither raises nor touches the type state, and only the
original constructor body runs, on an instance with no decorator-assigned
fields. -/
theorem init_disabled_c7_amended :
    ∀ tyName (sp : FuncSpec) (body : Inst → Inst) (ts : TypeState) vals,
      initCall false tyName sp body ts vals = ⟨none, ts, body []⟩ :=
  fun _ _ _ _ _ => rfl

lemma runArgs_append (annOf : String → Option AnnVal) :
    ∀ (ps1 ps2 : List (String × Value)) (st : ConsState),
      runArgs annOf st (ps1 ++ ps2) =
        match runArgs annOf st ps1 with
        | (some e, st2) => (some e, st2)
        | (none, st2) => runArgs annOf st2 ps2 := by
  intro ps1
  induction ps1 with
  | nil => intro ps2 st; rfl
  | cons p ps ih =>
    intro ps2 st
    simp only [List.cons_append, runArgs]
    cases hpf : processField annOf st p with
    | error e => simp
    | ok st2 => simp [ih]

lemma mkArgument_ok_shape (name : String) (value : Value) (ann : Option AnnVal)
    (arg : Argument) (h : mkArgument name value ann = Except.ok arg) :
    arg = ⟨name, value, parsedTypes ann, parsedKeywords ann⟩ := by
  have hr : mkArgument name value ann =
      (match checkType ⟨name, value, parsedTypes ann, parsedKeywords ann⟩ with
       | some e => Except.error e
       | none =>
         Except.ok (⟨name, value, parsedTypes ann, parsedKeywords ann⟩ : Argument)) := rfl
  rw [hr] at h
  cases hct : checkType ⟨name, value, parsedTypes ann, parsedKeywords ann⟩ with
  | some e => rw [hct] at h; cases h
  | none => rw [hct] at h; exact ((Except.ok.injEq _ _).mp h).symm

lemma processField_ok_inst (annOf : String → Option AnnVal) (st : ConsState)
    (p : String × Value) (st2 : ConsState)
    (h : processField annOf st p = Except.ok st2) :
    ∃ nm, st2.inst = st.inst ++ [(nm, p.2)] := by
  unfold processField at h
  cases hm : mkArgument p.1 p.2 (annOf p.1) with
  | error e => rw [hm] at h; cases h
  | ok arg =>
    rw [hm] at h
    dsimp only at h
    have hval : arg.value = p.2 := by rw [mkArgument_ok_shape p.1 p.2 _ arg hm]
    unfold addArgument at h
    cases hcc : checkConsistency st.os arg with
    | error e => rw [hcc] at h; cases h
    | ok os2 =>
      rw [hcc] at h
      dsimp only at h
      refine ⟨(if st.ts.inited then (st.ts, arg.name)
               else installCapabilities st.os.name st.ts arg).2, ?_⟩
      rw [← (Except.ok.injEq _ _).mp h, ← hval]

lemma runArgs_ok_inst (annOf : String → Option AnnVal) :
    ∀ (ps : List (String × Value)) (st st2 : ConsState),
      runArgs annOf st ps = (none, st2) →
      ∃ l, st2.inst = st.inst ++ l ∧ l.map Prod.snd = ps.map Prod.snd := by
  intro ps
  induction ps with
  | nil =>
    intro st st2 h
    have : st = st2 := congrArg Prod.snd h
    exact ⟨[], by rw [← this]; simp, rfl⟩
  | cons p ps ih =>
    intro st st2 h
    unfold runArgs at h
    cases hpf : processField annOf st p with
    | error e => rw [hpf] at h; cases h
    | ok stm =>
      rw [hpf] at h
      obtain ⟨l, hl1, hl2⟩ := ih stm st2 h
      obtain ⟨nm, hnm⟩ := processField_ok_inst annOf st p stm hpf
      refine ⟨(nm, p.2) :: l, ?_, ?_⟩
      · rw [hl1, hnm]; simp
      · simp [hl2]

/-- C9: when construction fails while processing a descriptor, the exception
propagates to the caller unchanged (the constructor body never runs), and the
field assignments already performed for the earlier descriptors remain on the
instance — one assignment per earlier descriptor, carrying its value, in
order; nothing is rolled back. -/
theorem partial_assignment_c9 :
    ∀ tyName (sp : FuncSpec) (body : Inst → Inst) (ts : TypeState) vals ps1 p ps2 stmid e,
      (sp.args.drop 1).zip (padArgs vals sp.defaults (sp.args.length - 1)) =
        ps1 ++ p :: ps2 →
      runArgs (annLookup sp) ⟨ts, ⟨tyName, []⟩, []⟩ ps1 = (none, stmid) →
      processField (annLookup sp) stmid p = Except.error e →
      initCall true tyName sp body ts vals = ⟨some e, stmid.ts, stmid.inst⟩
      ∧ stmid.inst.map Prod.snd = ps1.map Prod.snd := by
  intro tyName sp body ts vals ps1 p ps2 stmid e hzip hrun hpf
  constructor
  · simp only [initCall, if_true]
    rw [hzip, runArgs_append, hrun]
    simp only [runArgs, hpf]
  · obtain ⟨l, hl1, hl2⟩ := runArgs_ok_inst (annLookup sp) ps1 _ stmid hrun
    rw [hl1]
    simpa using hl2

/-- Signature with an unconstrained field `x` then a constrained field
`y: int`. -/
def fC9 : FuncSpec :=
  ⟨"__init__", ["self", "x", "y"], [("y", AnnVal.single (Ann.typ PyType.tInt))], []⟩

theorem partial_assignment_c9_witness :
    initCall true "T" fC9 (fun i => i) {} [⟨PyType.tInt, 1⟩, ⟨PyType.tStr, 0⟩] =
      ⟨some (DrasticError.argumentTypeError "__init__" "y" [Ann.typ PyType.tInt]
         PyType.tStr),
       {}, [("x", ⟨PyType.tInt, 1⟩)]⟩ :=
  (partial_assignment_c9 "T" fC9 (fun i => i) {} [⟨PyType.tInt, 1⟩, ⟨PyType.tStr, 0⟩]
    [("x", ⟨PyType.tInt, 1⟩)] ("y", ⟨PyType.tStr, 0⟩) []
    ⟨{}, ⟨"T", []⟩, [("x", ⟨PyType.tInt, 1⟩)]⟩ _ rfl rfl rfl).1

/-- The Object-keyword trace of one construction: the error raised (if any)
and the accumulated keyword state, which depend only on the signature and the
values, never on the per-type state.  Shadow of `runArgs` used to relate a
first and a second construction of the same type. -/
def osRun (annOf : String → Option AnnVal) :
    ObjState → List (String × Value) → Option DrasticError × ObjState
  | osn, [] => (none, osn)
  | osn, p :: ps =>
    match mkArgument p.1 p.2 (annOf p.1) with
    | Except.error e => (some e, osn)
    | Except.ok arg =>
      match checkConsistency osn arg with
      | Except.error e => (some e, osn)
      | Except.ok os2 => osRun annOf os2 ps

lemma runArgs_osRun (annOf : String → Option AnnVal) :
    ∀ (ps : List (String × Value)) (st : ConsState),
      (runArgs annOf st ps).1 = (osRun annOf st.os ps).1
      ∧ ((runArgs annOf st ps).2).os = (osRun annOf st.os ps).2 := by
  intro ps
  induction ps with
  | nil => intro st; exact ⟨rfl, rfl⟩
  | cons p ps ih =>
    intro st
    simp only [runArgs, osRun, processField]
    cases hm : mkArgument p.1 p.2 (annOf p.1) with
    | error e => simp
    | ok arg =>
      simp only []
      unfold addArgument
      cases hcc : checkConsistency st.os arg with
      | error e => simp
      | ok os2 =>
        simp only []
        exact ih ⟨(if st.ts.inited then (st.ts, arg.name)
                   else installCapabilities st.os.name st.ts arg).1, os2,
                  st.inst ++ [((if st.ts.inited then (st.ts, arg.name)
                   else installCapabilities st.os.name st.ts arg).2, arg.value)]⟩

lemma processField_ok_ts (annOf : String → Option AnnVal) (st : ConsState)
    (p : String × Value) (st2 : ConsState) (hi : st.ts.inited = true)
    (h : processField annOf st p = Except.ok st2) : st2.ts = st.ts := by
  unfold processField at h
  cases hm : mkArgument p.1 p.2 (annOf p.1) with
  | error e => rw [hm] at h; cases h
  | ok arg =>
    rw [hm] at h
    dsimp only at h
    unfold addArgument at h
    cases hcc : checkConsistency st.os arg with
    | error e => rw [hcc] at h; cases h
    | ok os2 =>
      rw [hcc] at h
      simp only [hi, if_true] at h
      rw [← (Except.ok.injEq _ _).mp h]

lemma runArgs_ts_inited (annOf : String → Option AnnVal) :
    ∀ (ps : List (String × Value)) (st : ConsState), st.ts.inited = true →
      ((runArgs annOf st ps).2).ts = st.ts := by
  intro ps
  induction ps with
  | nil => intro st _; rfl
  | cons p ps ih =>
    intro st hi
    simp only [runArgs]
    cases hpf : processField annOf st p with
    | error e => simp
    | ok st2 =>
      have hts := processField_ok_ts annOf st p st2 hi hpf
      simp only []
      rw [ih st2 (by rw [hts]; exact hi), hts]

lemma finalizeTS_idem (ts : TypeState) : finalizeTS (finalizeTS ts) = finalizeTS ts := by
  simp [finalizeTS, Bool.or_assoc]

lemma initCall_true (tyName : String) (sp : FuncSpec) (body : Inst → Inst)
    (ts : TypeState) (vals : List Value) :
    initCall true tyName sp body ts vals =
      match runArgs (annLookup sp) ⟨ts, ⟨tyName, []⟩, []⟩
          ((sp.args.drop 1).zip (padArgs vals sp.defaults (sp.args.length - 1))) with
      | (some e, st) => ⟨some e, st.ts, st.inst⟩
      | (none, st) => ⟨none, finalizeTS st.ts, body st.inst⟩ := rfl

/-- C6: once a construction of a correctly-declared type has succeeded,
constructing again raises nothing (in particular no `AnnotationError`: the
consistency trace depends only on the declared fields and values, which a
fresh per-construction `Object` replays identically) and installs nothing
new: whatever body and values the second construction uses, the type state —
the installed capabilities — stays exactly as the first construction left
it. -/
theorem second_construction_c6 :
    ∀ tyName (sp : FuncSpec) (body : Inst → Inst) (ts : TypeState) vals
      (r1 : InitResult),
      initCall true tyName sp body ts vals = r1 →
      r1.error = none →
      (initCall true tyName sp body r1.ts vals).error = none
      ∧ ∀ (body2 : Inst → Inst) vals2,
          (initCall true tyName sp body2 r1.ts vals2).ts = r1.ts := by
  intro tyName sp body ts vals r1 h1 herr
  rw [initCall_true] at h1
  rcases hrun : runArgs (annLookup sp) ⟨ts, ⟨tyName, []⟩, []⟩
      ((sp.args.drop 1).zip (padArgs vals sp.defaults (sp.args.length - 1)))
    with ⟨err, stm⟩
  rw [hrun] at h1
  cases err with
  | some e => rw [← h1] at herr; cases herr
  | none =>
    have hts : r1.ts = finalizeTS stm.ts := by rw [← h1]
    have hinited : r1.ts.inited = true := by rw [hts]; rfl
    constructor
    · rw [initCall_true]
      rcases hrun2 : runArgs (annLookup sp) ⟨r1.ts, ⟨tyName, []⟩, []⟩
          ((sp.args.drop 1).zip (padArgs vals sp.defaults (sp.args.length - 1)))
        with ⟨err2, stm2⟩
      have hos2 := (runArgs_osRun (annLookup sp)
        ((sp.args.drop 1).zip (padArgs vals sp.defaults (sp.args.length - 1)))
        ⟨r1.ts, ⟨tyName, []⟩, []⟩).1
      have hos1 := (runArgs_osRun (annLookup sp)
        ((sp.args.drop 1).zip (padArgs vals sp.defaults (sp.args.length - 1)))
        ⟨ts, ⟨tyName, []⟩, []⟩).1
      rw [hrun2] at hos2
      rw [hrun] at hos1
      have : err2 = none := by
        have := hos2.trans hos1.symm
        simpa using this
      rw [this]
    · intro body2 vals2
      rw [initCall_true]
      rcases hrun2 : runArgs (annLookup sp) ⟨r1.ts, ⟨tyName, []⟩, []⟩
          ((sp.args.drop 1).zip (padArgs vals2 sp.defaults (sp.args.length - 1)))
        with ⟨err2, stm2⟩
      have hts2 : stm2.ts = r1.ts := by
        have := runArgs_ts_inited (annLookup sp)
          ((sp.args.drop 1).zip (padArgs vals2 sp.defaults (sp.args.length - 1)))
          ⟨r1.ts, ⟨tyName, []⟩, []⟩ hinited
        rw [hrun2] at this
        exact this
      cases err2 with
      | some e => simp only []; exact hts2
      | none =>
        simp only []
        rw [hts2, hts, finalizeTS_idem]

/-- Signature of a correctly-declared type: one field with trait `boolean`. -/
def fC6 : FuncSpec :=
  ⟨"__init__", ["self", "x"], [("x", AnnVal.single (Ann.str "boolean"))], []⟩

theorem second_construction_c6_witness :
    (initCall true "T" fC6 (fun i => i) { inited := true, varbool := some "x" }
      [⟨PyType.tInt, 5⟩]).error = none :=
  (second_construction_c6 "T" fC6 (fun i => i) {} [⟨PyType.tInt, 5⟩]
    ⟨none, { inited := true, varbool := some "x" }, [("x", ⟨PyType.tInt, 5⟩)]⟩
    rfl rfl).1
